import Mathlib

/-!
Shallow embedding of the real-time notification subsystem of the SMT
production-schedule web application (`src/app.py`).

The embedded state consists of the two module-level registries

  room_users    : dict mapping a room name to a dict from socket id (sid)
                  to user info                                  (app.py:41)
  user_sessions : dict mapping a sid to its user info and the set of
                  rooms it has joined                           (app.py:42)

together with the SSE `update_queue` (app.py:37).  Python dicts are
modelled as association lists with in-place overwrite (first matching
key is replaced), Python sets of room names as duplicate-free lists.
The operations `add_user_to_room`, `remove_user_from_room`,
`cleanup_user_session`, `get_room_users`, `broadcast_status_update` and
the Socket.IO handlers `handle_connect`, `handle_disconnect`,
`handle_join_room`, `handle_leave_room` are translated line by line
from app.py (lines 2063-2310).
-/

set_option autoImplicit false

namespace SMT

abbrev Sid := String
abbrev RoomName := String

/-- The identity attached to a connection, as produced by
`get_user_from_token` (app.py:2132-2141). -/
structure UserInfo where
  user_id : Nat
  username : String
  role : String
deriving DecidableEq, Repr

/-! ### Python dict operations on association lists -/

/-- Python `d.get(a)` / `d[a]` lookup: first binding of the key wins. -/
def dictGet {α β : Type} [DecidableEq α] : List (α × β) → α → Option β
  | [], _ => none
  | (k, v) :: t, a => if k = a then some v else dictGet t a

/-- Python `d[a] = b`: overwrite the existing binding in place, or append. -/
def dictInsert {α β : Type} [DecidableEq α] : List (α × β) → α → β → List (α × β)
  | [], a, b => [(a, b)]
  | (k, v) :: t, a, b => if k = a then (a, b) :: t else (k, v) :: dictInsert t a b

/-- Python `del d[a]`: drop the first binding of the key. -/
def dictErase {α β : Type} [DecidableEq α] : List (α × β) → α → List (α × β)
  | [], _ => []
  | (k, v) :: t, a => if k = a then t else (k, v) :: dictErase t a

/-- The key list of an association list. -/
def keys {α β : Type} (l : List (α × β)) : List α :=
  l.map Prod.fst

/-! ### Python set operations on room-name lists -/

/-- Python `s.add(a)` on a set. -/
def setAdd (l : List RoomName) (a : RoomName) : List RoomName :=
  if a ∈ l then l else l ++ [a]

/-- Python `s.discard(a)` on a set. -/
def setDiscard (l : List RoomName) (a : RoomName) : List RoomName :=
  l.filter (fun x => x ≠ a)

/-! ### Server state: the two registries -/

/-- One entry of `user_sessions`: `{'user_info': ..., 'rooms': set()}`
(app.py:2159, app.py:2223-2226). -/
structure Session where
  user_info : UserInfo
  rooms : List RoomName
deriving DecidableEq, Repr

/-- The two module-level registries of app.py (lines 41-42). -/
structure ServerState where
  room_users : List (RoomName × List (Sid × UserInfo))
  user_sessions : List (Sid × Session)
deriving DecidableEq, Repr

/-- The state at module load: both dicts empty. -/
def initState : ServerState := ⟨[], []⟩

/-- The closed room enumeration checked by `handle_join_room` and
`handle_leave_room` (app.py:2249, app.py:2286). -/
def validRooms : List RoomName := ["timeline", "floor_display"]

/-- Test `sid in room_users[room]`: `sid` is a key of room `room`'s member map. -/
def inRoomMap (s : ServerState) (room : RoomName) (sid : Sid) : Bool :=
  match dictGet s.room_users room with
  | none => false
  | some m => (dictGet m sid).isSome

/-- Test `room in user_sessions[sid]['rooms']`. -/
def inJoinedRooms (s : ServerState) (sid : Sid) (room : RoomName) : Bool :=
  match dictGet s.user_sessions sid with
  | none => false
  | some sess => decide (room ∈ sess.rooms)

/-! ### Room-management operations (app.py:2151-2199) -/

/-- Function `add_user_to_room(sid, room, user_info)` (app.py:2151-2162). -/
def add_user_to_room (sid : Sid) (room : RoomName) (u : UserInfo)
    (s : ServerState) : ServerState :=
  let m := (dictGet s.room_users room).getD []
  let room_users' := dictInsert s.room_users room (dictInsert m sid u)
  match dictGet s.user_sessions sid with
  | none =>
      { room_users := room_users',
        user_sessions := dictInsert s.user_sessions sid ⟨u, setAdd [] room⟩ }
  | some sess =>
      { room_users := room_users',
        user_sessions :=
          dictInsert s.user_sessions sid ⟨sess.user_info, setAdd sess.rooms room⟩ }

/-- Function `remove_user_from_room(sid, room)` (app.py:2164-2175); returns the
removed user's info, or `none` when `sid` was not in the room. -/
def remove_user_from_room (sid : Sid) (room : RoomName)
    (s : ServerState) : ServerState × Option UserInfo :=
  match dictGet s.room_users room with
  | none => (s, none)
  | some m =>
    match dictGet m sid with
    | none => (s, none)
    | some u =>
      let room_users' := dictInsert s.room_users room (dictErase m sid)
      let user_sessions' :=
        match dictGet s.user_sessions sid with
        | none => s.user_sessions
        | some sess =>
            dictInsert s.user_sessions sid ⟨sess.user_info, setDiscard sess.rooms room⟩
      (⟨room_users', user_sessions'⟩, some u)

/-- The `for room in rooms` loop body of `cleanup_user_session`
(app.py:2183-2190), applied left to right. -/
def removeFromRooms (sid : Sid) (rooms : List RoomName)
    (s : ServerState) : ServerState :=
  rooms.foldl (fun st room => (remove_user_from_room sid room st).1) s

/-- Function `cleanup_user_session(sid)` (app.py:2177-2193).  Returns the new
state together with the list of rooms to which a `user_left_room`
notification was emitted, one emission per list element, in order. -/
def cleanup_user_session (sid : Sid) (s : ServerState) :
    ServerState × List RoomName :=
  match dictGet s.user_sessions sid with
  | none => (s, [])
  | some sess =>
    let s1 := removeFromRooms sid sess.rooms s
    (⟨s1.room_users, dictErase s1.user_sessions sid⟩, sess.rooms)

/-- Function `get_room_users(room)` (app.py:2195-2199). -/
def get_room_users (room : RoomName) (s : ServerState) : List UserInfo :=
  match dictGet s.room_users room with
  | none => []
  | some m => m.map Prod.snd

/-! ### Socket.IO handlers (app.py:2202-2310) -/

/-- A message emitted back to a client or broadcast to a room. -/
inductive Emit where
  | error (msg : String)
  | connected (sid : Sid)
  | room_joined (room : RoomName)
  | user_joined_room (room : RoomName)
  | room_left (room : RoomName)
  | user_left_room (room : RoomName)
deriving DecidableEq, Repr

/-- Outcome of token extraction in `handle_connect`: `none` means no
auth/token was supplied, `some none` an invalid token, `some (some u)` a
token that validated to identity `u`. -/
abbrev AuthResult := Option (Option UserInfo)

/-- Handler `handle_connect(auth)` (app.py:2202-2239) for connection `sid`.
A valid token stores `user_sessions[sid] = {'user_info': u, 'rooms': set()}`
unconditionally and emits `connected`; a missing or invalid token emits
an error and leaves the state unchanged. -/
def handle_connect (sid : Sid) (auth : AuthResult)
    (s : ServerState) : ServerState × List Emit :=
  match auth with
  | none => (s, [.error "Authentication required"])
  | some none => (s, [.error "Invalid authentication token"])
  | some (some u) =>
      ({ s with user_sessions := dictInsert s.user_sessions sid ⟨u, []⟩ },
       [.connected sid])

/-- Handler `handle_disconnect()` (app.py:2241-2245): runs
`cleanup_user_session`, which emits one `user_left_room` per room. -/
def handle_disconnect (sid : Sid) (s : ServerState) :
    ServerState × List Emit :=
  let r := cleanup_user_session sid s
  (r.1, r.2.map .user_left_room)

/-- Handler `handle_join_room(data)` (app.py:2247-2281). -/
def handle_join_room (sid : Sid) (room : RoomName)
    (s : ServerState) : ServerState × List Emit :=
  if room ∈ validRooms then
    match dictGet s.user_sessions sid with
    | none => (s, [.error "User session not found"])
    | some sess =>
        let s' := add_user_to_room sid room sess.user_info s
        (s', [.room_joined room, .user_joined_room room])
  else (s, [.error ("Invalid room: " ++ room)])

/-- Handler `handle_leave_room(data)` (app.py:2283-2310).  Note: when the
connection is not a member of the (valid) room, the source emits
`error, 'User not in room: <room>'` to the client (app.py:2310). -/
def handle_leave_room (sid : Sid) (room : RoomName)
    (s : ServerState) : ServerState × List Emit :=
  if room ∈ validRooms then
    match remove_user_from_room sid room s with
    | (s', some _) => (s', [.room_left room, .user_left_room room])
    | (s', none) => (s', [.error ("User not in room: " ++ room)])
  else (s, [.error ("Invalid room: " ++ room)])

/-- One join / leave / disconnect operation, as dispatched by the
Socket.IO event handlers. -/
inductive Op where
  | join (sid : Sid) (room : RoomName)
  | leave (sid : Sid) (room : RoomName)
  | disconnect (sid : Sid)
deriving DecidableEq, Repr

def applyOp (s : ServerState) : Op → ServerState
  | .join sid room => (handle_join_room sid room s).1
  | .leave sid room => (handle_leave_room sid room s).1
  | .disconnect sid => (handle_disconnect sid s).1

def applyOps (ops : List Op) (s : ServerState) : ServerState :=
  ops.foldl applyOp s

/-! ### Well-formedness of the registries

Structural facts true of every state the code can reach (dict keys are
unique, room sets are duplicate-free) together with the cross-registry
consistency invariant of spec section 3. -/

/-- The invariant of spec section 8: for every room and connection the
Room Registry and the Session Registry agree on membership. -/
def consistent (s : ServerState) : Prop :=
  ∀ room sid, inRoomMap s room sid = inJoinedRooms s sid room

structure WF (s : ServerState) : Prop where
  roomKeys : (keys s.room_users).Nodup
  memberKeys : ∀ p ∈ s.room_users, (keys p.2).Nodup
  sessionKeys : (keys s.user_sessions).Nodup
  sessionRooms : ∀ p ∈ s.user_sessions, p.2.rooms.Nodup
  consist : consistent s

/-! ### SSE pull transport (app.py:2040-2091)

`update_queue` is one module-level shared `Queue` (app.py:37); every
`/api/events` connection runs `event_generator`, whose polling loop
does `if not update_queue.empty(): update = update_queue.get()`
(app.py:2079-2081) and yields the dequeued item to its own client only. -/

structure SSEState where
  update_queue : List String
  delivered : List (Nat × String)
deriving DecidableEq, Repr

def initSSE : SSEState := ⟨[], []⟩

/-- Call `update_queue.put(u)` (app.py:2120). -/
def queuePut (u : String) (st : SSEState) : SSEState :=
  { st with update_queue := st.update_queue ++ [u] }

/-- One iteration of consumer `i`'s `event_generator` polling loop
(app.py:2077-2083): if the shared queue is non-empty, dequeue the head
and yield it to consumer `i`; otherwise sleep. -/
def pollStep (st : SSEState) (i : Nat) : SSEState :=
  match st.update_queue with
  | [] => st
  | u :: rest => ⟨rest, st.delivered ++ [(i, u)]⟩

def pollSteps (sched : List Nat) (st : SSEState) : SSEState :=
  sched.foldl pollStep st

/-- Consumer `i` has received payload `u` on its stream. -/
def receives (i : Nat) (u : String) (st : SSEState) : Bool :=
  (i, u) ∈ st.delivered

/-! ### broadcast_status_update (app.py:2093-2129) -/

/-- Input record `work_order_data`. -/
structure WorkOrderData where
  id : String
  work_order_number : String
  qr_code : String
  customer_name : String
  assembly_number : String
  line_name : String
  line_number : String
  quantity : String
  trolley_number : String
deriving DecidableEq, Repr

/-- The `work_order` sub-object of the composed payload (app.py:2098-2109). -/
structure WorkOrderPayload where
  id : String
  work_order_number : String
  qr_code : String
  customer_name : String
  assembly_number : String
  line_name : String
  line_number : String
  status : String
  quantity : String
  trolley_number : String
deriving DecidableEq, Repr

/-- The `status_change` sub-object of the composed payload (app.py:2110-2115). -/
structure StatusChangePayload where
  old_status : String
  new_status : String
  updated_by : String
deriving DecidableEq, Repr

/-- The canonical `update_data` payload (app.py:2096-2117). -/
structure UpdateData where
  type : String
  work_order : WorkOrderPayload
  status_change : StatusChangePayload
deriving DecidableEq, Repr

/-- The single construction of `update_data` inside
`broadcast_status_update` (app.py:2096-2117). -/
def mkUpdateData (w : WorkOrderData) (old_status new_status updated_by : String) :
    UpdateData :=
  { type := "work_order_update",
    work_order :=
      { id := w.id, work_order_number := w.work_order_number,
        qr_code := w.qr_code, customer_name := w.customer_name,
        assembly_number := w.assembly_number, line_name := w.line_name,
        line_number := w.line_number, status := new_status,
        quantity := w.quantity, trolley_number := w.trolley_number },
    status_change :=
      { old_status := old_status, new_status := new_status,
        updated_by := updated_by } }

/-- Fault model for the three external deliveries performed inside the
`try` block: `update_queue.put`, `socketio.emit(..., room='timeline')`,
`socketio.emit(..., room='floor_display')`.  A `true` flag means that
call raises. -/
structure Faults where
  put_raises : Bool
  emit_timeline_raises : Bool
  emit_floor_raises : Bool
deriving DecidableEq, Repr

def noFaults : Faults := ⟨false, false, false⟩

/-- State observed by the two transports. -/
structure NotifyState where
  update_queue : List UpdateData
  socket_emits : List (RoomName × UpdateData)
deriving DecidableEq, Repr

def initNotify : NotifyState := ⟨[], []⟩

/-- The `try` block of `broadcast_status_update` (app.py:2095-2125):
build `update_data`, then `update_queue.put`, then the two
`socketio.emit` calls, in that order; execution stops at the first
raising call, whose exception (`some msg`) is returned alongside the
state reached so far. -/
def tryBroadcast (f : Faults) (w : WorkOrderData)
    (old_status new_status updated_by : String)
    (s : NotifyState) : NotifyState × Option String :=
  let d := mkUpdateData w old_status new_status updated_by
  if f.put_raises then (s, some "queue put failed")
  else
    let s1 := { s with update_queue := s.update_queue ++ [d] }
    if f.emit_timeline_raises then (s1, some "emit timeline failed")
    else
      let s2 := { s1 with socket_emits := s1.socket_emits ++ [("timeline", d)] }
      if f.emit_floor_raises then (s2, some "emit floor_display failed")
      else ({ s2 with socket_emits := s2.socket_emits ++ [("floor_display", d)] },
            none)

/-- Function `broadcast_status_update` (app.py:2093-2129): the whole `try` body
wrapped in `except Exception as e: logger.error(...)`, so any exception
is swallowed; the second component is the exception propagated to the
caller. -/
def broadcast_status_update (f : Faults) (w : WorkOrderData)
    (old_status new_status updated_by : String)
    (s : NotifyState) : NotifyState × Option String :=
  match tryBroadcast f w old_status new_status updated_by s with
  | (s', _) => (s', none)

/-- True when the handler output contains an `error` emission to the
client. -/
def emitsError (es : List Emit) : Bool :=
  es.any fun e =>
    match e with
    | .error _ => true
    | _ => false

/-! ### Concrete states used to instantiate the theorems -/

def u1 : UserInfo := ⟨1, "alice", "admin"⟩

/-- State after connection `c1` authenticates. -/
def demo1 : ServerState := (handle_connect "c1" (some (some u1)) initState).1

/-- State after `c1` additionally joins `timeline`. -/
def demo2 : ServerState := (handle_join_room "c1" "timeline" demo1).1

/-- State after `c1` joins and then leaves `timeline`: the `timeline`
entry of `room_users` still exists but is empty. -/
def demo3 : ServerState := (handle_leave_room "c1" "timeline" demo2).1

/-- A sample `work_order_data` record. -/
def demoWO : WorkOrderData :=
  ⟨"41", "WO-1", "QR-41", "Acme", "ASM-9", "Line 1", "2", "50", "T-3"⟩

/-! ## Lemmas about the dict and set primitives -/

section DictLemmas

variable {α β : Type} [DecidableEq α]

@[simp]
theorem dictGet_nil (a : α) : dictGet ([] : List (α × β)) a = none := rfl

@[simp]
theorem dictGet_cons (k : α) (v : β) (t : List (α × β)) (a : α) :
    dictGet ((k, v) :: t) a = if k = a then some v else dictGet t a := rfl

@[simp]
theorem keys_nil : keys ([] : List (α × β)) = [] := rfl

@[simp]
theorem keys_cons (k : α) (v : β) (t : List (α × β)) :
    keys ((k, v) :: t) = k :: keys t := rfl

theorem dictInsert_cons (k : α) (v : β) (t : List (α × β)) (a : α) (b : β) :
    dictInsert ((k, v) :: t) a b =
      if k = a then (a, b) :: t else (k, v) :: dictInsert t a b := rfl

theorem dictErase_cons (k : α) (v : β) (t : List (α × β)) (a : α) :
    dictErase ((k, v) :: t) a =
      if k = a then t else (k, v) :: dictErase t a := rfl

theorem dictGet_insert_self (l : List (α × β)) (a : α) (b : β) :
    dictGet (dictInsert l a b) a = some b := by
  induction l with
  | nil => simp [dictInsert]
  | cons p t ih =>
      obtain ⟨k, v⟩ := p
      by_cases hk : k = a
      · simp [dictInsert, hk]
      · simp [dictInsert, hk, ih]

theorem dictGet_insert_ne (l : List (α × β)) (a a' : α) (b : β) (h : a' ≠ a) :
    dictGet (dictInsert l a b) a' = dictGet l a' := by
  induction l with
  | nil => simp [dictInsert, Ne.symm h]
  | cons p t ih =>
      obtain ⟨k, v⟩ := p
      by_cases hk : k = a
      · subst hk
        simp [dictInsert, Ne.symm h]
      · simp only [dictInsert, if_neg hk, dictGet_cons]
        by_cases hk' : k = a'
        · simp [hk']
        · simp [hk', ih]

theorem dictGet_erase_ne (l : List (α × β)) (a a' : α) (h : a' ≠ a) :
    dictGet (dictErase l a) a' = dictGet l a' := by
  induction l with
  | nil => simp [dictErase]
  | cons p t ih =>
      obtain ⟨k, v⟩ := p
      by_cases hk : k = a
      · subst hk
        simp [dictErase, Ne.symm h]
      · simp only [dictErase, if_neg hk, dictGet_cons]
        by_cases hk' : k = a'
        · simp [hk']
        · simp [hk', ih]

theorem mem_keys_of_dictGet {l : List (α × β)} {a : α} {b : β}
    (h : dictGet l a = some b) : a ∈ keys l := by
  induction l with
  | nil => simp at h
  | cons p t ih =>
      obtain ⟨k, v⟩ := p
      by_cases hk : k = a
      · simp [hk]
      · simp only [dictGet_cons, if_neg hk] at h
        simp [ih h]

theorem dictGet_erase_self (l : List (α × β)) (a : α)
    (h : (keys l).Nodup) : dictGet (dictErase l a) a = none := by
  induction l with
  | nil => simp [dictErase]
  | cons p t ih =>
      obtain ⟨k, v⟩ := p
      simp only [keys_cons, List.nodup_cons] at h
      by_cases hk : k = a
      · subst hk
        simp only [dictErase, if_pos rfl]
        cases hg : dictGet t k with
        | none => exact hg
        | some b => exact absurd (mem_keys_of_dictGet hg) h.1
      · simp [dictErase, hk, ih h.2]

theorem mem_of_dictGet {l : List (α × β)} {a : α} {b : β}
    (h : dictGet l a = some b) : (a, b) ∈ l := by
  induction l with
  | nil => simp at h
  | cons p t ih =>
      obtain ⟨k, v⟩ := p
      by_cases hk : k = a
      · subst hk
        simp only [dictGet_cons, if_pos rfl] at h
        obtain rfl : v = b := by injection h
        simp
      · simp only [dictGet_cons, if_neg hk] at h
        exact List.mem_cons_of_mem _ (ih h)

theorem mem_keys_dictInsert {l : List (α × β)} {a x : α} {b : β} :
    x ∈ keys (dictInsert l a b) ↔ x = a ∨ x ∈ keys l := by
  induction l with
  | nil => simp [dictInsert]
  | cons p t ih =>
      obtain ⟨k, v⟩ := p
      by_cases hk : k = a
      · subst hk
        rw [dictInsert_cons, if_pos rfl]
        simp only [keys_cons, List.mem_cons]
        tauto
      · simp only [dictInsert, if_neg hk, keys_cons, List.mem_cons, ih]
        tauto

theorem mem_keys_dictErase_sub {l : List (α × β)} {a x : α}
    (h : x ∈ keys (dictErase l a)) : x ∈ keys l := by
  induction l with
  | nil => simpa [dictErase] using h
  | cons p t ih =>
      obtain ⟨k, v⟩ := p
      by_cases hk : k = a
      · subst hk
        rw [dictErase_cons, if_pos rfl] at h
        simp [h]
      · simp only [dictErase, if_neg hk, keys_cons, List.mem_cons] at h ⊢
        tauto

theorem nodup_keys_dictInsert {l : List (α × β)} {a : α} {b : β}
    (h : (keys l).Nodup) : (keys (dictInsert l a b)).Nodup := by
  induction l with
  | nil => simp [dictInsert]
  | cons p t ih =>
      obtain ⟨k, v⟩ := p
      simp only [keys_cons, List.nodup_cons] at h
      by_cases hk : k = a
      · subst hk
        simpa [dictInsert] using h
      · simp only [dictInsert, if_neg hk, keys_cons, List.nodup_cons]
        refine ⟨fun hx => ?_, ih h.2⟩
        rcases mem_keys_dictInsert.mp hx with h1 | h1
        · exact hk h1
        · exact h.1 h1

theorem nodup_keys_dictErase {l : List (α × β)} {a : α}
    (h : (keys l).Nodup) : (keys (dictErase l a)).Nodup := by
  induction l with
  | nil => simp [dictErase]
  | cons p t ih =>
      obtain ⟨k, v⟩ := p
      simp only [keys_cons, List.nodup_cons] at h
      by_cases hk : k = a
      · subst hk
        simpa [dictErase] using h.2
      · simp only [dictErase, if_neg hk, keys_cons, List.nodup_cons]
        exact ⟨fun hx => h.1 (mem_keys_dictErase_sub hx), ih h.2⟩

theorem mem_dictInsert {l : List (α × β)} {a : α} {b : β} {p : α × β}
    (h : p ∈ dictInsert l a b) : p = (a, b) ∨ p ∈ l := by
  induction l with
  | nil => simpa [dictInsert] using h
  | cons q t ih =>
      obtain ⟨k, v⟩ := q
      by_cases hk : k = a
      · subst hk
        rw [dictInsert_cons, if_pos rfl] at h
        simp only [List.mem_cons] at h
        rcases h with h1 | h1
        · exact Or.inl h1
        · exact Or.inr (List.mem_cons_of_mem _ h1)
      · simp only [dictInsert, if_neg hk, List.mem_cons] at h
        rcases h with h1 | h1
        · exact Or.inr (by simp [h1])
        · rcases ih h1 with h2 | h2
          · exact Or.inl h2
          · exact Or.inr (List.mem_cons_of_mem _ h2)

theorem mem_dictErase {l : List (α × β)} {a : α} {p : α × β}
    (h : p ∈ dictErase l a) : p ∈ l := by
  induction l with
  | nil => simpa [dictErase] using h
  | cons q t ih =>
      obtain ⟨k, v⟩ := q
      by_cases hk : k = a
      · subst hk
        simp only [dictErase, if_pos rfl] at h
        exact List.mem_cons_of_mem _ h
      · simp only [dictErase, if_neg hk, List.mem_cons] at h
        rcases h with h1 | h1
        · exact by simp [h1]
        · exact List.mem_cons_of_mem _ (ih h1)

theorem length_dictInsert_of_isSome {l : List (α × β)} {a : α} (b : β)
    (h : (dictGet l a).isSome) : (dictInsert l a b).length = l.length := by
  induction l with
  | nil => simp at h
  | cons q t ih =>
      obtain ⟨k, v⟩ := q
      by_cases hk : k = a
      · simp [dictInsert, hk]
      · simp only [dictGet_cons, if_neg hk] at h
        simp [dictInsert, hk, ih h]

theorem dictInsert_dictInsert_self (l : List (α × β)) (a : α) (b1 b2 : β) :
    dictInsert (dictInsert l a b1) a b2 = dictInsert l a b2 := by
  induction l with
  | nil => simp [dictInsert]
  | cons q t ih =>
      obtain ⟨k, v⟩ := q
      by_cases hk : k = a
      · simp [dictInsert, hk]
      · simp [dictInsert, hk, ih]

end DictLemmas

section SetLemmas

theorem mem_setAdd {l : List RoomName} {a x : RoomName} :
    x ∈ setAdd l a ↔ x ∈ l ∨ x = a := by
  by_cases h : a ∈ l
  · constructor
    · intro hx; exact Or.inl (by simpa [setAdd, h] using hx)
    · intro hx
      rcases hx with h1 | h1
      · simpa [setAdd, h] using h1
      · simpa [setAdd, h, h1] using h
  · simp [setAdd, h, List.mem_append]

theorem nodup_setAdd {l : List RoomName} {a : RoomName}
    (h : l.Nodup) : (setAdd l a).Nodup := by
  by_cases ha : a ∈ l
  · simpa [setAdd, ha] using h
  · simpa [setAdd, ha] using List.Nodup.append h (by simp) (by simpa using ha)

theorem mem_setDiscard {l : List RoomName} {a x : RoomName} :
    x ∈ setDiscard l a ↔ x ∈ l ∧ x ≠ a := by
  simp [setDiscard, List.mem_filter]

theorem nodup_setDiscard {l : List RoomName} {a : RoomName}
    (h : l.Nodup) : (setDiscard l a).Nodup :=
  List.Nodup.filter _ h

theorem setAdd_self_mem (l : List RoomName) (a : RoomName) : a ∈ setAdd l a :=
  mem_setAdd.mpr (Or.inr rfl)

theorem setAdd_idem (l : List RoomName) (a : RoomName) :
    setAdd (setAdd l a) a = setAdd l a := by
  show (if a ∈ setAdd l a then setAdd l a else setAdd l a ++ [a]) = setAdd l a
  rw [if_pos (setAdd_self_mem l a)]

end SetLemmas

/-! ## Effect of each operation on the two registries -/

section StateLemmas

theorem add_room_users (sid : Sid) (room : RoomName) (u : UserInfo)
    (s : ServerState) :
    (add_user_to_room sid room u s).room_users =
      dictInsert s.room_users room
        (dictInsert ((dictGet s.room_users room).getD []) sid u) := by
  unfold add_user_to_room
  cases dictGet s.user_sessions sid <;> rfl

theorem add_user_sessions_none (sid : Sid) (room : RoomName) (u : UserInfo)
    (s : ServerState) (h : dictGet s.user_sessions sid = none) :
    (add_user_to_room sid room u s).user_sessions =
      dictInsert s.user_sessions sid ⟨u, setAdd [] room⟩ := by
  unfold add_user_to_room
  rw [h]

theorem add_user_sessions_some (sid : Sid) (room : RoomName) (u : UserInfo)
    (s : ServerState) (sess : Session)
    (h : dictGet s.user_sessions sid = some sess) :
    (add_user_to_room sid room u s).user_sessions =
      dictInsert s.user_sessions sid ⟨sess.user_info, setAdd sess.rooms room⟩ := by
  unfold add_user_to_room
  rw [h]

theorem inRoomMap_none {s : ServerState} {room : RoomName} {sid : Sid}
    (h : dictGet s.room_users room = none) : inRoomMap s room sid = false := by
  unfold inRoomMap
  rw [h]

theorem inRoomMap_some {s : ServerState} {room : RoomName} {sid : Sid}
    {m : List (Sid × UserInfo)} (h : dictGet s.room_users room = some m) :
    inRoomMap s room sid = (dictGet m sid).isSome := by
  unfold inRoomMap
  rw [h]

theorem inJoinedRooms_none {s : ServerState} {sid : Sid} {room : RoomName}
    (h : dictGet s.user_sessions sid = none) : inJoinedRooms s sid room = false := by
  unfold inJoinedRooms
  rw [h]

theorem inJoinedRooms_some {s : ServerState} {sid : Sid} {room : RoomName}
    {sess : Session} (h : dictGet s.user_sessions sid = some sess) :
    inJoinedRooms s sid room = decide (room ∈ sess.rooms) := by
  unfold inJoinedRooms
  rw [h]

theorem inRoomMap_add (sid : Sid) (room : RoomName) (u : UserInfo)
    (s : ServerState) (r : RoomName) (c : Sid) :
    inRoomMap (add_user_to_room sid room u s) r c =
      (inRoomMap s r c || (decide (r = room) && decide (c = sid))) := by
  by_cases hr : r = room
  · subst hr
    have hget : dictGet (add_user_to_room sid r u s).room_users r =
        some (dictInsert ((dictGet s.room_users r).getD []) sid u) := by
      rw [add_room_users]
      exact dictGet_insert_self _ _ _
    rw [inRoomMap_some hget]
    by_cases hc : c = sid
    · subst hc
      rw [dictGet_insert_self]
      simp
    · rw [dictGet_insert_ne _ _ _ _ hc]
      cases hm : dictGet s.room_users r with
      | none => rw [inRoomMap_none hm]; simp [hc]
      | some m => rw [inRoomMap_some hm]; simp [hc]
  · have hget : dictGet (add_user_to_room sid room u s).room_users r =
        dictGet s.room_users r := by
      rw [add_room_users]
      exact dictGet_insert_ne _ _ _ _ hr
    cases hm : dictGet s.room_users r with
    | none => rw [inRoomMap_none (hget.trans hm), inRoomMap_none hm]; simp [hr]
    | some m => rw [inRoomMap_some (hget.trans hm), inRoomMap_some hm]; simp [hr]

theorem inJoinedRooms_add (sid : Sid) (room : RoomName) (u : UserInfo)
    (s : ServerState) (c : Sid) (r : RoomName) :
    inJoinedRooms (add_user_to_room sid room u s) c r =
      (inJoinedRooms s c r || (decide (r = room) && decide (c = sid))) := by
  by_cases hc : c = sid
  · subst hc
    cases hs : dictGet s.user_sessions c with
    | none =>
        have hget : dictGet (add_user_to_room c room u s).user_sessions c =
            some ⟨u, setAdd [] room⟩ := by
          rw [add_user_sessions_none _ _ _ _ hs]
          exact dictGet_insert_self _ _ _
        rw [inJoinedRooms_some hget, inJoinedRooms_none hs]
        have hset : setAdd ([] : List RoomName) room = [room] := by simp [setAdd]
        rw [hset]
        by_cases hr : r = room
        · subst hr; simp
        · simp [hr]
    | some sess =>
        have hget : dictGet (add_user_to_room c room u s).user_sessions c =
            some ⟨sess.user_info, setAdd sess.rooms room⟩ := by
          rw [add_user_sessions_some _ _ _ _ _ hs]
          exact dictGet_insert_self _ _ _
        rw [inJoinedRooms_some hget, inJoinedRooms_some hs]
        by_cases hroom : room ∈ sess.rooms
        · have hset : setAdd sess.rooms room = sess.rooms := by simp [setAdd, hroom]
          rw [hset]
          by_cases hr : r = room
          · subst hr; simp [hroom]
          · simp [hr]
        · have hset : setAdd sess.rooms room = sess.rooms ++ [room] := by
            simp [setAdd, hroom]
          rw [hset]
          by_cases hr : r = room
          · subst hr; simp [hroom]
          · simp [hr]
  · have hget : dictGet (add_user_to_room sid room u s).user_sessions c =
        dictGet s.user_sessions c := by
      cases hs : dictGet s.user_sessions sid with
      | none => rw [add_user_sessions_none _ _ _ _ hs, dictGet_insert_ne _ _ _ _ hc]
      | some sess => rw [add_user_sessions_some _ _ _ _ _ hs, dictGet_insert_ne _ _ _ _ hc]
    cases hs' : dictGet s.user_sessions c with
    | none => rw [inJoinedRooms_none (hget.trans hs'), inJoinedRooms_none hs']; simp [hc]
    | some sess => rw [inJoinedRooms_some (hget.trans hs'), inJoinedRooms_some hs']; simp [hc]

theorem WF_add (sid : Sid) (room : RoomName) (u : UserInfo)
    (s : ServerState) (h : WF s) : WF (add_user_to_room sid room u s) := by
  constructor
  · rw [add_room_users]
    exact nodup_keys_dictInsert h.roomKeys
  · intro p hp
    rw [add_room_users] at hp
    rcases mem_dictInsert hp with h1 | h1
    · subst h1
      apply nodup_keys_dictInsert
      cases hm : dictGet s.room_users room with
      | none => simp
      | some m => simpa using h.memberKeys _ (mem_of_dictGet hm)
    · exact h.memberKeys _ h1
  · cases hs : dictGet s.user_sessions sid with
    | none =>
        rw [add_user_sessions_none _ _ _ _ hs]
        exact nodup_keys_dictInsert h.sessionKeys
    | some sess =>
        rw [add_user_sessions_some _ _ _ _ _ hs]
        exact nodup_keys_dictInsert h.sessionKeys
  · intro p hp
    cases hs : dictGet s.user_sessions sid with
    | none =>
        rw [add_user_sessions_none _ _ _ _ hs] at hp
        rcases mem_dictInsert hp with h1 | h1
        · subst h1
          exact nodup_setAdd List.nodup_nil
        · exact h.sessionRooms _ h1
    | some sess =>
        rw [add_user_sessions_some _ _ _ _ _ hs] at hp
        rcases mem_dictInsert hp with h1 | h1
        · subst h1
          exact nodup_setAdd (h.sessionRooms _ (mem_of_dictGet hs))
        · exact h.sessionRooms _ h1
  · intro r c
    rw [inRoomMap_add, inJoinedRooms_add, h.consist]

theorem inRoomMap_congr {s1 s2 : ServerState} {r : RoomName}
    (h : dictGet s1.room_users r = dictGet s2.room_users r) (c : Sid) :
    inRoomMap s1 r c = inRoomMap s2 r c := by
  unfold inRoomMap
  rw [h]

theorem inJoinedRooms_congr {s1 s2 : ServerState} {c : Sid}
    (h : dictGet s1.user_sessions c = dictGet s2.user_sessions c) (r : RoomName) :
    inJoinedRooms s1 c r = inJoinedRooms s2 c r := by
  unfold inJoinedRooms
  rw [h]

theorem remove_no_room {sid : Sid} {room : RoomName} {s : ServerState}
    (h : dictGet s.room_users room = none) :
    remove_user_from_room sid room s = (s, none) := by
  unfold remove_user_from_room
  rw [h]

theorem remove_no_member {sid : Sid} {room : RoomName} {s : ServerState}
    {m : List (Sid × UserInfo)} (hm : dictGet s.room_users room = some m)
    (h : dictGet m sid = none) :
    remove_user_from_room sid room s = (s, none) := by
  simp [remove_user_from_room, hm, h]

theorem remove_member_room_users {sid : Sid} {room : RoomName} {s : ServerState}
    {m : List (Sid × UserInfo)} {u : UserInfo}
    (hm : dictGet s.room_users room = some m) (hu : dictGet m sid = some u) :
    (remove_user_from_room sid room s).1.room_users =
      dictInsert s.room_users room (dictErase m sid) := by
  cases hs : dictGet s.user_sessions sid <;>
    simp [remove_user_from_room, hm, hu, hs]

theorem remove_member_snd {sid : Sid} {room : RoomName} {s : ServerState}
    {m : List (Sid × UserInfo)} {u : UserInfo}
    (hm : dictGet s.room_users room = some m) (hu : dictGet m sid = some u) :
    (remove_user_from_room sid room s).2 = some u := by
  cases hs : dictGet s.user_sessions sid <;>
    simp [remove_user_from_room, hm, hu, hs]

theorem remove_member_sessions_none {sid : Sid} {room : RoomName}
    {s : ServerState} {m : List (Sid × UserInfo)} {u : UserInfo}
    (hm : dictGet s.room_users room = some m) (hu : dictGet m sid = some u)
    (hs : dictGet s.user_sessions sid = none) :
    (remove_user_from_room sid room s).1.user_sessions = s.user_sessions := by
  simp [remove_user_from_room, hm, hu, hs]

theorem remove_member_sessions_some {sid : Sid} {room : RoomName}
    {s : ServerState} {m : List (Sid × UserInfo)} {u : UserInfo} {sess : Session}
    (hm : dictGet s.room_users room = some m) (hu : dictGet m sid = some u)
    (hs : dictGet s.user_sessions sid = some sess) :
    (remove_user_from_room sid room s).1.user_sessions =
      dictInsert s.user_sessions sid
        ⟨sess.user_info, setDiscard sess.rooms room⟩ := by
  simp [remove_user_from_room, hm, hu, hs]

theorem not_inRoomMap_of_no_room {s : ServerState} {room : RoomName} {sid : Sid}
    (h : dictGet s.room_users room = none) : inRoomMap s room sid = false :=
  inRoomMap_none h

theorem inRoomMap_remove_self (sid : Sid) (room : RoomName) (s : ServerState)
    (hWF : WF s) (r : RoomName) :
    inRoomMap (remove_user_from_room sid room s).1 r sid =
      (inRoomMap s r sid && !(decide (r = room))) := by
  cases hm : dictGet s.room_users room with
  | none =>
      rw [remove_no_room hm]
      by_cases hr : r = room
      · subst hr
        rw [inRoomMap_none hm]
        simp
      · simp [hr]
  | some m =>
      cases hu : dictGet m sid with
      | none =>
          rw [remove_no_member hm hu]
          by_cases hr : r = room
          · subst hr
            rw [inRoomMap_some hm, hu]
            simp
          · simp [hr]
      | some u =>
          have hru := remove_member_room_users hm hu
          by_cases hr : r = room
          · subst hr
            have hget : dictGet
                (remove_user_from_room sid r s).1.room_users r =
                some (dictErase m sid) := by
              rw [hru]
              exact dictGet_insert_self _ _ _
            rw [inRoomMap_some hget,
              dictGet_erase_self m sid (hWF.memberKeys _ (mem_of_dictGet hm))]
            simp
          · have hget : dictGet
                (remove_user_from_room sid room s).1.room_users r =
                dictGet s.room_users r := by
              rw [hru]
              exact dictGet_insert_ne _ _ _ _ hr
            rw [inRoomMap_congr hget]
            simp [hr]

theorem inRoomMap_remove_other (sid : Sid) (room : RoomName) (s : ServerState)
    (c : Sid) (hc : c ≠ sid) (r : RoomName) :
    inRoomMap (remove_user_from_room sid room s).1 r c = inRoomMap s r c := by
  cases hm : dictGet s.room_users room with
  | none => rw [remove_no_room hm]
  | some m =>
      cases hu : dictGet m sid with
      | none => rw [remove_no_member hm hu]
      | some u =>
          have hru := remove_member_room_users hm hu
          by_cases hr : r = room
          · subst hr
            have hget : dictGet
                (remove_user_from_room sid r s).1.room_users r =
                some (dictErase m sid) := by
              rw [hru]
              exact dictGet_insert_self _ _ _
            rw [inRoomMap_some hget, dictGet_erase_ne _ _ _ hc, inRoomMap_some hm]
          · have hget : dictGet
                (remove_user_from_room sid room s).1.room_users r =
                dictGet s.room_users r := by
              rw [hru]
              exact dictGet_insert_ne _ _ _ _ hr
            rw [inRoomMap_congr hget]

theorem inJoinedRooms_remove_self (sid : Sid) (room : RoomName) (s : ServerState)
    (hWF : WF s) (r : RoomName) :
    inJoinedRooms (remove_user_from_room sid room s).1 sid r =
      (inJoinedRooms s sid r && !(decide (r = room))) := by
  cases hm : dictGet s.room_users room with
  | none =>
      rw [remove_no_room hm]
      by_cases hr : r = room
      · subst hr
        rw [← hWF.consist r sid, inRoomMap_none hm]
        simp
      · simp [hr]
  | some m =>
      cases hu : dictGet m sid with
      | none =>
          rw [remove_no_member hm hu]
          by_cases hr : r = room
          · subst hr
            rw [← hWF.consist r sid, inRoomMap_some hm, hu]
            simp
          · simp [hr]
      | some u =>
          cases hs : dictGet s.user_sessions sid with
          | none =>
              have hget : dictGet
                  (remove_user_from_room sid room s).1.user_sessions sid =
                  none := by
                rw [remove_member_sessions_none hm hu hs]
                exact hs
              rw [inJoinedRooms_none hget, inJoinedRooms_none hs]
              simp
          | some sess =>
              have hget : dictGet
                  (remove_user_from_room sid room s).1.user_sessions sid =
                  some ⟨sess.user_info, setDiscard sess.rooms room⟩ := by
                rw [remove_member_sessions_some hm hu hs]
                exact dictGet_insert_self _ _ _
              rw [inJoinedRooms_some hget, inJoinedRooms_some hs]
              by_cases hr : r = room
              · subst hr
                have : ¬(r ∈ setDiscard sess.rooms r) := by
                  rw [mem_setDiscard]
                  simp
                simp [this]
              · have hmem : (r ∈ setDiscard sess.rooms room) ↔ r ∈ sess.rooms := by
                  rw [mem_setDiscard]
                  simp [hr]
                by_cases h2 : r ∈ sess.rooms
                · simp [hmem.mpr h2, h2, hr]
                · have hnot : r ∉ setDiscard sess.rooms room :=
                    fun hh => h2 (hmem.mp hh)
                  simp [hnot, h2, hr]

theorem inJoinedRooms_remove_other (sid : Sid) (room : RoomName) (s : ServerState)
    (c : Sid) (hc : c ≠ sid) (r : RoomName) :
    inJoinedRooms (remove_user_from_room sid room s).1 c r =
      inJoinedRooms s c r := by
  cases hm : dictGet s.room_users room with
  | none => rw [remove_no_room hm]
  | some m =>
      cases hu : dictGet m sid with
      | none => rw [remove_no_member hm hu]
      | some u =>
          cases hs : dictGet s.user_sessions sid with
          | none =>
              exact inJoinedRooms_congr
                (by rw [remove_member_sessions_none hm hu hs]) r
          | some sess =>
              refine inJoinedRooms_congr ?_ r
              rw [remove_member_sessions_some hm hu hs]
              exact dictGet_insert_ne _ _ _ _ hc

theorem remove_sessions_get {sid : Sid} {room : RoomName} {s : ServerState}
    (c : Sid) (hc : c ≠ sid) :
    dictGet (remove_user_from_room sid room s).1.user_sessions c =
      dictGet s.user_sessions c := by
  cases hm : dictGet s.room_users room with
  | none => rw [remove_no_room hm]
  | some m =>
      cases hu : dictGet m sid with
      | none => rw [remove_no_member hm hu]
      | some u =>
          cases hs : dictGet s.user_sessions sid with
          | none => rw [remove_member_sessions_none hm hu hs]
          | some sess =>
              rw [remove_member_sessions_some hm hu hs]
              exact dictGet_insert_ne _ _ _ _ hc

theorem WF_remove (sid : Sid) (room : RoomName) (s : ServerState)
    (hWF : WF s) : WF (remove_user_from_room sid room s).1 := by
  cases hm : dictGet s.room_users room with
  | none => rw [remove_no_room hm]; exact hWF
  | some m =>
      cases hu : dictGet m sid with
      | none => rw [remove_no_member hm hu]; exact hWF
      | some u =>
          constructor
          · rw [remove_member_room_users hm hu]
            exact nodup_keys_dictInsert hWF.roomKeys
          · intro p hp
            rw [remove_member_room_users hm hu] at hp
            rcases mem_dictInsert hp with h1 | h1
            · subst h1
              exact nodup_keys_dictErase (hWF.memberKeys _ (mem_of_dictGet hm))
            · exact hWF.memberKeys _ h1
          · cases hs : dictGet s.user_sessions sid with
            | none =>
                rw [remove_member_sessions_none hm hu hs]
                exact hWF.sessionKeys
            | some sess =>
                rw [remove_member_sessions_some hm hu hs]
                exact nodup_keys_dictInsert hWF.sessionKeys
          · intro p hp
            cases hs : dictGet s.user_sessions sid with
            | none =>
                rw [remove_member_sessions_none hm hu hs] at hp
                exact hWF.sessionRooms _ hp
            | some sess =>
                rw [remove_member_sessions_some hm hu hs] at hp
                rcases mem_dictInsert hp with h1 | h1
                · subst h1
                  exact nodup_setDiscard
                    (hWF.sessionRooms _ (mem_of_dictGet hs))
                · exact hWF.sessionRooms _ h1
          · intro r c
            by_cases hc : c = sid
            · subst hc
              rw [inRoomMap_remove_self _ _ _ hWF,
                inJoinedRooms_remove_self _ _ _ hWF, hWF.consist]
            · rw [inRoomMap_remove_other _ _ _ _ hc,
                inJoinedRooms_remove_other _ _ _ _ hc, hWF.consist]

theorem removeFromRooms_nil (sid : Sid) (s : ServerState) :
    removeFromRooms sid [] s = s := rfl

theorem removeFromRooms_cons (sid : Sid) (a : RoomName) (rest : List RoomName)
    (s : ServerState) :
    removeFromRooms sid (a :: rest) s =
      removeFromRooms sid rest (remove_user_from_room sid a s).1 := rfl

theorem WF_removeFromRooms (sid : Sid) (rooms : List RoomName) :
    ∀ s : ServerState, WF s → WF (removeFromRooms sid rooms s) := by
  induction rooms with
  | nil => intro s h; exact h
  | cons a rest ih =>
      intro s h
      rw [removeFromRooms_cons]
      exact ih _ (WF_remove _ _ _ h)

theorem inRoomMap_removeFromRooms_self (sid : Sid) (rooms : List RoomName) :
    ∀ s : ServerState, WF s → ∀ r : RoomName,
      inRoomMap (removeFromRooms sid rooms s) r sid =
        (inRoomMap s r sid && !(decide (r ∈ rooms))) := by
  induction rooms with
  | nil =>
      intro s h r
      rw [removeFromRooms_nil]
      simp
  | cons a rest ih =>
      intro s h r
      rw [removeFromRooms_cons, ih _ (WF_remove _ _ _ h) r,
        inRoomMap_remove_self _ _ _ h r]
      by_cases h1 : r = a <;> by_cases h2 : r ∈ rest <;>
        simp [h1, h2]

theorem inRoomMap_removeFromRooms_other (sid : Sid) (rooms : List RoomName) :
    ∀ (s : ServerState) (c : Sid), c ≠ sid → ∀ r : RoomName,
      inRoomMap (removeFromRooms sid rooms s) r c = inRoomMap s r c := by
  induction rooms with
  | nil => intro s c hc r; rfl
  | cons a rest ih =>
      intro s c hc r
      rw [removeFromRooms_cons, ih _ _ hc r, inRoomMap_remove_other _ _ _ _ hc r]

theorem inJoinedRooms_removeFromRooms_other (sid : Sid) (rooms : List RoomName) :
    ∀ (s : ServerState) (c : Sid), c ≠ sid → ∀ r : RoomName,
      inJoinedRooms (removeFromRooms sid rooms s) c r = inJoinedRooms s c r := by
  induction rooms with
  | nil => intro s c hc r; rfl
  | cons a rest ih =>
      intro s c hc r
      rw [removeFromRooms_cons, ih _ _ hc r,
        inJoinedRooms_remove_other _ _ _ _ hc r]

theorem sessions_get_removeFromRooms (sid : Sid) (rooms : List RoomName) :
    ∀ (s : ServerState) (c : Sid), c ≠ sid →
      dictGet (removeFromRooms sid rooms s).user_sessions c =
        dictGet s.user_sessions c := by
  induction rooms with
  | nil => intro s c hc; rfl
  | cons a rest ih =>
      intro s c hc
      rw [removeFromRooms_cons, ih _ _ hc, remove_sessions_get _ hc]

theorem cleanup_no_session {sid : Sid} {s : ServerState}
    (h : dictGet s.user_sessions sid = none) :
    cleanup_user_session sid s = (s, []) := by
  simp [cleanup_user_session, h]

theorem cleanup_session {sid : Sid} {s : ServerState} {sess : Session}
    (h : dictGet s.user_sessions sid = some sess) :
    cleanup_user_session sid s =
      (⟨(removeFromRooms sid sess.rooms s).room_users,
        dictErase (removeFromRooms sid sess.rooms s).user_sessions sid⟩,
       sess.rooms) := by
  simp [cleanup_user_session, h, removeFromRooms]

theorem inRoomMap_cleanup_self (sid : Sid) (s : ServerState) (hWF : WF s)
    (r : RoomName) :
    inRoomMap (cleanup_user_session sid s).1 r sid = false := by
  cases hs : dictGet s.user_sessions sid with
  | none =>
      rw [cleanup_no_session hs]
      rw [hWF.consist r sid, inJoinedRooms_none hs]
  | some sess =>
      rw [cleanup_session hs]
      have hcongr : dictGet
          (⟨(removeFromRooms sid sess.rooms s).room_users,
            dictErase (removeFromRooms sid sess.rooms s).user_sessions sid⟩ :
              ServerState).room_users r =
          dictGet (removeFromRooms sid sess.rooms s).room_users r := rfl
      rw [inRoomMap_congr hcongr sid,
        inRoomMap_removeFromRooms_self sid sess.rooms s hWF r,
        hWF.consist r sid, inJoinedRooms_some hs]
      by_cases h2 : r ∈ sess.rooms <;> simp [h2]

theorem inJoinedRooms_cleanup_self (sid : Sid) (s : ServerState) (hWF : WF s)
    (r : RoomName) :
    inJoinedRooms (cleanup_user_session sid s).1 sid r = false := by
  cases hs : dictGet s.user_sessions sid with
  | none =>
      rw [cleanup_no_session hs]
      exact inJoinedRooms_none hs
  | some sess =>
      rw [cleanup_session hs]
      exact inJoinedRooms_none
        (dictGet_erase_self _ _ (WF_removeFromRooms sid sess.rooms s hWF).sessionKeys)

theorem inRoomMap_cleanup_other (sid : Sid) (s : ServerState) (c : Sid)
    (hc : c ≠ sid) (r : RoomName) :
    inRoomMap (cleanup_user_session sid s).1 r c = inRoomMap s r c := by
  cases hs : dictGet s.user_sessions sid with
  | none => rw [cleanup_no_session hs]
  | some sess =>
      rw [cleanup_session hs]
      exact (inRoomMap_congr rfl c).trans
        (inRoomMap_removeFromRooms_other sid sess.rooms s c hc r)

theorem inJoinedRooms_cleanup_other (sid : Sid) (s : ServerState) (c : Sid)
    (hc : c ≠ sid) (r : RoomName) :
    inJoinedRooms (cleanup_user_session sid s).1 c r = inJoinedRooms s c r := by
  cases hs : dictGet s.user_sessions sid with
  | none => rw [cleanup_no_session hs]
  | some sess =>
      rw [cleanup_session hs]
      refine (inJoinedRooms_congr ?_ r).trans
        (inJoinedRooms_removeFromRooms_other sid sess.rooms s c hc r)
      exact dictGet_erase_ne _ _ _ hc

theorem WF_cleanup (sid : Sid) (s : ServerState) (hWF : WF s) :
    WF (cleanup_user_session sid s).1 := by
  cases hs : dictGet s.user_sessions sid with
  | none => rw [cleanup_no_session hs]; exact hWF
  | some sess =>
      have hX := WF_removeFromRooms sid sess.rooms s hWF
      refine ⟨?_, ?_, ?_, ?_, ?_⟩
      · rw [cleanup_session hs]
        exact hX.roomKeys
      · rw [cleanup_session hs]
        exact hX.memberKeys
      · rw [cleanup_session hs]
        exact nodup_keys_dictErase hX.sessionKeys
      · rw [cleanup_session hs]
        intro p hp
        exact hX.sessionRooms _ (mem_dictErase hp)
      · intro r c
        by_cases hc : c = sid
        · subst hc
          rw [inRoomMap_cleanup_self _ _ hWF, inJoinedRooms_cleanup_self _ _ hWF]
        · rw [inRoomMap_cleanup_other _ _ _ hc, inJoinedRooms_cleanup_other _ _ _ hc,
            hWF.consist]

theorem cleanup_emits_count (sid : Sid) (s : ServerState) (hWF : WF s)
    (room : RoomName) :
    List.count room (cleanup_user_session sid s).2 =
      (if inRoomMap s room sid then 1 else 0) := by
  cases hs : dictGet s.user_sessions sid with
  | none =>
      rw [cleanup_no_session hs, hWF.consist room sid, inJoinedRooms_none hs]
      simp
  | some sess =>
      rw [cleanup_session hs, hWF.consist room sid, inJoinedRooms_some hs]
      have hnd : sess.rooms.Nodup := hWF.sessionRooms _ (mem_of_dictGet hs)
      by_cases h2 : room ∈ sess.rooms
      · rw [List.count_eq_one_of_mem hnd h2]
        simp [h2]
      · rw [List.count_eq_zero_of_not_mem h2]
        simp [h2]

theorem handle_join_invalid {sid : Sid} {room : RoomName} {s : ServerState}
    (h : room ∉ validRooms) :
    handle_join_room sid room s = (s, [.error ("Invalid room: " ++ room)]) := by
  simp [handle_join_room, h]

theorem handle_join_no_session {sid : Sid} {room : RoomName} {s : ServerState}
    (hv : room ∈ validRooms) (hs : dictGet s.user_sessions sid = none) :
    handle_join_room sid room s = (s, [.error "User session not found"]) := by
  simp [handle_join_room, hv, hs]

theorem handle_join_ok {sid : Sid} {room : RoomName} {s : ServerState}
    {sess : Session} (hv : room ∈ validRooms)
    (hs : dictGet s.user_sessions sid = some sess) :
    handle_join_room sid room s =
      (add_user_to_room sid room sess.user_info s,
       [.room_joined room, .user_joined_room room]) := by
  simp [handle_join_room, hv, hs]

theorem handle_leave_invalid {sid : Sid} {room : RoomName} {s : ServerState}
    (h : room ∉ validRooms) :
    handle_leave_room sid room s = (s, [.error ("Invalid room: " ++ room)]) := by
  simp [handle_leave_room, h]

theorem handle_leave_member {sid : Sid} {room : RoomName} {s s' : ServerState}
    {u : UserInfo} (hv : room ∈ validRooms)
    (hrem : remove_user_from_room sid room s = (s', some u)) :
    handle_leave_room sid room s =
      (s', [.room_left room, .user_left_room room]) := by
  simp [handle_leave_room, hv, hrem]

theorem handle_leave_nonmember {sid : Sid} {room : RoomName} {s s' : ServerState}
    (hv : room ∈ validRooms)
    (hrem : remove_user_from_room sid room s = (s', none)) :
    handle_leave_room sid room s =
      (s', [.error ("User not in room: " ++ room)]) := by
  simp [handle_leave_room, hv, hrem]

theorem WF_handle_join (sid : Sid) (room : RoomName) (s : ServerState)
    (hWF : WF s) : WF (handle_join_room sid room s).1 := by
  by_cases hv : room ∈ validRooms
  · cases hs : dictGet s.user_sessions sid with
    | none => rw [handle_join_no_session hv hs]; exact hWF
    | some sess =>
        rw [handle_join_ok hv hs]
        exact WF_add _ _ _ _ hWF
  · rw [handle_join_invalid hv]; exact hWF

theorem WF_handle_leave (sid : Sid) (room : RoomName) (s : ServerState)
    (hWF : WF s) : WF (handle_leave_room sid room s).1 := by
  by_cases hv : room ∈ validRooms
  · cases hrem : remove_user_from_room sid room s with
    | mk s' o =>
        have hs' : WF s' := by
          have := WF_remove sid room s hWF
          rwa [hrem] at this
        cases o with
        | none => rw [handle_leave_nonmember hv hrem]; exact hs'
        | some u => rw [handle_leave_member hv hrem]; exact hs'
  · rw [handle_leave_invalid hv]; exact hWF

theorem WF_handle_disconnect (sid : Sid) (s : ServerState) (hWF : WF s) :
    WF (handle_disconnect sid s).1 :=
  WF_cleanup sid s hWF

theorem WF_applyOp (s : ServerState) (hWF : WF s) (op : Op) :
    WF (applyOp s op) := by
  cases op with
  | join sid room => exact WF_handle_join sid room s hWF
  | leave sid room => exact WF_handle_leave sid room s hWF
  | disconnect sid => exact WF_handle_disconnect sid s hWF

theorem WF_applyOps (ops : List Op) :
    ∀ s : ServerState, WF s → WF (applyOps ops s) := by
  induction ops with
  | nil => intro s h; exact h
  | cons op rest ih =>
      intro s h
      exact ih _ (WF_applyOp s h op)

theorem WF_initState : WF initState :=
  ⟨List.nodup_nil, fun p hp => absurd hp (List.not_mem_nil p),
   List.nodup_nil, fun p hp => absurd hp (List.not_mem_nil p),
   fun r c => rfl⟩

theorem WF_handle_connect_fresh (sid : Sid) (u : UserInfo) (s : ServerState)
    (hWF : WF s) (hs : dictGet s.user_sessions sid = none) :
    WF (handle_connect sid (some (some u)) s).1 := by
  refine ⟨hWF.roomKeys, hWF.memberKeys, nodup_keys_dictInsert hWF.sessionKeys,
    ?_, ?_⟩
  · intro p hp
    rcases mem_dictInsert hp with h1 | h1
    · subst h1
      exact List.nodup_nil
    · exact hWF.sessionRooms _ h1
  · intro r c
    by_cases hc : c = sid
    · subst hc
      have h1 : inRoomMap (handle_connect c (some (some u)) s).1 r c =
          inRoomMap s r c := inRoomMap_congr rfl c
      have h2 : dictGet (handle_connect c (some (some u)) s).1.user_sessions c =
          some ⟨u, []⟩ := dictGet_insert_self _ _ _
      rw [h1, inJoinedRooms_some h2, hWF.consist r c, inJoinedRooms_none hs]
      simp
    · have h1 : inRoomMap (handle_connect sid (some (some u)) s).1 r c =
          inRoomMap s r c := inRoomMap_congr rfl c
      have h2 : dictGet (handle_connect sid (some (some u)) s).1.user_sessions c =
          dictGet s.user_sessions c := dictGet_insert_ne _ _ _ _ hc
      rw [h1, inJoinedRooms_congr h2 r, hWF.consist]

theorem ServerState_eq {a b : ServerState}
    (h1 : a.room_users = b.room_users)
    (h2 : a.user_sessions = b.user_sessions) : a = b := by
  cases a
  cases b
  simp only at h1 h2
  rw [h1, h2]

theorem get_room_users_none {s : ServerState} {room : RoomName}
    (h : dictGet s.room_users room = none) : get_room_users room s = [] := by
  unfold get_room_users
  rw [h]

theorem get_room_users_some {s : ServerState} {room : RoomName}
    {m : List (Sid × UserInfo)} (h : dictGet s.room_users room = some m) :
    get_room_users room s = m.map Prod.snd := by
  unfold get_room_users
  rw [h]

theorem add_user_to_room_idem (sid : Sid) (room : RoomName) (u : UserInfo)
    (s : ServerState) :
    add_user_to_room sid room u (add_user_to_room sid room u s) =
      add_user_to_room sid room u s := by
  apply ServerState_eq
  · rw [add_room_users, add_room_users, dictGet_insert_self]
    simp only [Option.getD_some]
    rw [dictInsert_dictInsert_self, dictInsert_dictInsert_self]
  · cases hs : dictGet s.user_sessions sid with
    | none =>
        have hget : dictGet (add_user_to_room sid room u s).user_sessions sid =
            some ⟨u, setAdd [] room⟩ := by
          rw [add_user_sessions_none _ _ _ _ hs]
          exact dictGet_insert_self _ _ _
        rw [add_user_sessions_some _ _ _ _ _ hget,
          add_user_sessions_none _ _ _ _ hs]
        rw [show (Session.mk u (setAdd [] room)).user_info = u from rfl,
          show (Session.mk u (setAdd [] room)).rooms = setAdd [] room from rfl,
          setAdd_idem, dictInsert_dictInsert_self]
    | some sess =>
        have hget : dictGet (add_user_to_room sid room u s).user_sessions sid =
            some ⟨sess.user_info, setAdd sess.rooms room⟩ := by
          rw [add_user_sessions_some _ _ _ _ _ hs]
          exact dictGet_insert_self _ _ _
        rw [add_user_sessions_some _ _ _ _ _ hget,
          add_user_sessions_some _ _ _ _ _ hs]
        rw [show (Session.mk sess.user_info (setAdd sess.rooms room)).user_info =
          sess.user_info from rfl,
          show (Session.mk sess.user_info (setAdd sess.rooms room)).rooms =
            setAdd sess.rooms room from rfl,
          setAdd_idem, dictInsert_dictInsert_self]

theorem WF_demo1 : WF demo1 :=
  WF_handle_connect_fresh "c1" u1 initState WF_initState rfl

theorem WF_demo2 : WF demo2 :=
  WF_handle_join "c1" "timeline" demo1 WF_demo1

theorem pollStep_empty {st : SSEState} (h : st.update_queue = []) (i : Nat) :
    pollStep st i = st := by
  obtain ⟨q, d⟩ := st
  simp only at h
  subst h
  rfl

theorem pollSteps_empty (sched : List Nat) :
    ∀ st : SSEState, st.update_queue = [] → pollSteps sched st = st := by
  induction sched with
  | nil => intro st h; rfl
  | cons i rest ih =>
      intro st h
      show pollSteps rest (pollStep st i) = st
      rw [pollStep_empty h i]
      exact ih st h

theorem user_left_room_injective : Function.Injective Emit.user_left_room := by
  intro a b h
  injection h

/-! ## The claims -/

/-- C5: after disconnect cleanup for connection `sid`, no room's member
map contains `sid`; exactly one `user_left_room` departure notification
is emitted per room `sid` was a member of immediately before the
cleanup (none for rooms it was not in); and cleanup for an unregistered
identifier is a no-op returning no rooms, so a duplicated disconnect
signal is harmless. -/
theorem C5_disconnect_cleanup (s : ServerState) (hWF : WF s) (sid : Sid) :
    (∀ room, inRoomMap (cleanup_user_session sid s).1 room sid = false) ∧
    (∀ room, List.count room (cleanup_user_session sid s).2 =
      (if inRoomMap s room sid then 1 else 0)) ∧
    (∀ room, List.count (Emit.user_left_room room) (handle_disconnect sid s).2 =
      (if inRoomMap s room sid then 1 else 0)) ∧
    (dictGet s.user_sessions sid = none → cleanup_user_session sid s = (s, [])) := by
  refine ⟨fun room => inRoomMap_cleanup_self sid s hWF room,
    fun room => cleanup_emits_count sid s hWF room, ?_,
    fun h => cleanup_no_session h⟩
  intro room
  show List.count (Emit.user_left_room room)
    (List.map Emit.user_left_room (cleanup_user_session sid s).2) = _
  rw [List.count_map_of_injective _ _ user_left_room_injective,
    cleanup_emits_count sid s hWF room]

/-- Witness for C5: disconnecting `c1`, a member of `timeline`, removes
it from the room and emits exactly one departure notification. -/
theorem C5_disconnect_cleanup_witness :
    inRoomMap (cleanup_user_session "c1" demo2).1 "timeline" "c1" = false ∧
    List.count "timeline" (cleanup_user_session "c1" demo2).2 = 1 := by
  have h := C5_disconnect_cleanup demo2 WF_demo2 "c1"
  refine ⟨h.1 "timeline", ?_⟩
  rw [h.2.1 "timeline"]
  decide

/-- Counterexample to C6: leaving a valid room the connection is not a
member of makes `handle_leave_room` emit an `error` event
(`User not in room: <room>`) to the client — both for a connection that
never joined (`demo1`) and on the second of two consecutive leaves
(`demo3` is the state right after `c1` left `timeline`). -/
theorem C6_counterexample :
    emitsError (handle_leave_room "c1" "timeline" demo1).2 = true ∧
    emitsError (handle_leave_room "c1" "timeline" demo3).2 = true :=
  ⟨by decide, by decide⟩

/-- C6 as amended: leaving a valid room you are not in leaves every
registry unchanged and the registry-level removal reports no membership
(`remove_user_from_room` returns `None`, i.e. `was_member = false`,
without raising), but the handler then signals an `error` event naming
the room to the client instead of silently succeeding; the same happens
on the second of two consecutive leaves. -/
theorem C6_leave_nonmember (s : ServerState) (sid : Sid) (room : RoomName)
    (hv : room ∈ validRooms) (hnm : inRoomMap s room sid = false) :
    remove_user_from_room sid room s = (s, none) ∧
    handle_leave_room sid room s =
      (s, [.error ("User not in room: " ++ room)]) := by
  have hrem : remove_user_from_room sid room s = (s, none) := by
    cases hm : dictGet s.room_users room with
    | none => exact remove_no_room hm
    | some m =>
        cases hu : dictGet m sid with
        | none => exact remove_no_member hm hu
        | some u =>
            rw [inRoomMap_some hm, hu] at hnm
            simp at hnm
  exact ⟨hrem, handle_leave_nonmember hv hrem⟩

/-- Witness for C6 as amended, at a connection that has a session but
is in no room. -/
theorem C6_leave_nonmember_witness :
    remove_user_from_room "c1" "timeline" demo1 = (demo1, none) ∧
    handle_leave_room "c1" "timeline" demo1 =
      (demo1, [.error "User not in room: timeline"]) :=
  C6_leave_nonmember demo1 "c1" "timeline" (by decide) (by decide)

/-- C9: joining a room the connection is already a member of is
idempotent — repeating the join reproduces exactly the same registries,
the member count is unchanged, and the member map holds a single entry
for the connection (no duplicate membership). -/
theorem C9_join_idempotent (s : ServerState) (sid : Sid) (room : RoomName)
    (hWF : WF s) (hv : room ∈ validRooms) (hm : inRoomMap s room sid = true) :
    (handle_join_room sid room (handle_join_room sid room s).1).1 =
      (handle_join_room sid room s).1 ∧
    (get_room_users room (handle_join_room sid room s).1).length =
      (get_room_users room s).length ∧
    List.count sid
      (keys ((dictGet (handle_join_room sid room s).1.room_users room).getD [])) = 1 := by
  have hjr : inJoinedRooms s sid room = true := by
    rw [← hWF.consist room sid]
    exact hm
  obtain ⟨sess, hs⟩ : ∃ sess, dictGet s.user_sessions sid = some sess := by
    cases hs : dictGet s.user_sessions sid with
    | none => rw [inJoinedRooms_none hs] at hjr; cases hjr
    | some sess => exact ⟨sess, rfl⟩
  obtain ⟨m, hm0⟩ : ∃ m, dictGet s.room_users room = some m := by
    cases hm0 : dictGet s.room_users room with
    | none => rw [inRoomMap_none hm0] at hm; cases hm
    | some m => exact ⟨m, rfl⟩
  have hsid : (dictGet m sid).isSome := by
    rw [inRoomMap_some hm0] at hm
    exact hm
  have hfst : (handle_join_room sid room s).1 =
      add_user_to_room sid room sess.user_info s := by
    rw [handle_join_ok hv hs]
  have hmA : dictGet (add_user_to_room sid room sess.user_info s).room_users room =
      some (dictInsert m sid sess.user_info) := by
    rw [add_room_users, dictGet_insert_self, hm0]
    rfl
  refine ⟨?_, ?_, ?_⟩
  · have hs2 : dictGet
        (add_user_to_room sid room sess.user_info s).user_sessions sid =
        some ⟨sess.user_info, setAdd sess.rooms room⟩ := by
      rw [add_user_sessions_some _ _ _ _ _ hs]
      exact dictGet_insert_self _ _ _
    rw [hfst, handle_join_ok hv hs2]
    exact add_user_to_room_idem sid room sess.user_info s
  · rw [hfst, get_room_users_some hmA, get_room_users_some hm0,
      List.length_map, List.length_map]
    exact length_dictInsert_of_isSome _ hsid
  · rw [hfst, hmA]
    simp only [Option.getD_some]
    refine List.count_eq_one_of_mem
      (nodup_keys_dictInsert (hWF.memberKeys _ (mem_of_dictGet hm0)))
      (mem_keys_dictInsert.mpr (Or.inl rfl))

/-- Witness for C9: `c1` is already in `timeline` in `demo2`; joining
again changes nothing. -/
theorem C9_join_idempotent_witness :
    (handle_join_room "c1" "timeline" (handle_join_room "c1" "timeline" demo2).1).1 =
      (handle_join_room "c1" "timeline" demo2).1 ∧
    (get_room_users "timeline" (handle_join_room "c1" "timeline" demo2).1).length =
      (get_room_users "timeline" demo2).length ∧
    List.count "c1"
      (keys ((dictGet (handle_join_room "c1" "timeline" demo2).1.room_users
        "timeline").getD [])) = 1 :=
  C9_join_idempotent demo2 "c1" "timeline" WF_demo2 (by decide) (by decide)

/-- C1: for every room `R` and connection `c`, after any sequence of
join, leave and disconnect operations applied to a well-formed state,
`c` is a key of `room_users[R]` if and only if `R` is in
`user_sessions[c]['rooms']` — the Room Registry and the Session
Registry never disagree. -/
theorem C1_registries_never_disagree (s : ServerState) (hWF : WF s)
    (ops : List Op) : consistent (applyOps ops s) :=
  (WF_applyOps ops s hWF).consist

/-- Witness for C1 at a concrete state and operation sequence. -/
theorem C1_registries_never_disagree_witness :
    inRoomMap (applyOps [Op.join "c1" "timeline", Op.leave "c1" "timeline",
      Op.join "c1" "floor_display", Op.disconnect "c1"] demo1) "timeline" "c1" =
    inJoinedRooms (applyOps [Op.join "c1" "timeline", Op.leave "c1" "timeline",
      Op.join "c1" "floor_display", Op.disconnect "c1"] demo1) "c1" "timeline" :=
  C1_registries_never_disagree demo1 WF_demo1
    [Op.join "c1" "timeline", Op.leave "c1" "timeline",
     Op.join "c1" "floor_display", Op.disconnect "c1"] "timeline" "c1"

/-- C2 (the claim is violated by the code): `update_queue` is one shared
FIFO and each `event_generator` dequeues from it, so after one event is
published while consumers `0` and `1` are both connected and consumer
`0` polls first, consumer `1` never receives the event no matter how
the polling continues — the event was competed for, not fanned out. -/
theorem C2_shared_queue_no_fanout (sched : List Nat) :
    receives 0 "evt" (pollSteps sched (pollStep (queuePut "evt" initSSE) 0)) = true ∧
    receives 1 "evt" (pollSteps sched (pollStep (queuePut "evt" initSSE) 0)) = false := by
  rw [show pollStep (queuePut "evt" initSSE) 0 =
    (⟨[], [(0, "evt")]⟩ : SSEState) from rfl]
  rw [pollSteps_empty sched _ rfl]
  exact ⟨rfl, rfl⟩

/-- C3: a single call to `broadcast_status_update` (with both transports
delivering) appends exactly one payload to the Event Queue and hands the
very same payload to the Room Broadcaster for `timeline` and
`floor_display`; in particular the queued and the broadcast payloads
carry identical subject, `status_change.old` and `status_change.new`
values. -/
theorem C3_dual_transport_parity (w : WorkOrderData)
    (old_status new_status updated_by : String) (s : NotifyState) :
    ∃ d : UpdateData,
      (broadcast_status_update noFaults w old_status new_status updated_by s).1.update_queue =
        s.update_queue ++ [d] ∧
      (broadcast_status_update noFaults w old_status new_status updated_by s).1.socket_emits =
        s.socket_emits ++ [("timeline", d), ("floor_display", d)] ∧
      d.work_order.work_order_number = w.work_order_number ∧
      d.status_change.old_status = old_status ∧
      d.status_change.new_status = new_status := by
  refine ⟨mkUpdateData w old_status new_status updated_by, rfl, ?_, rfl, rfl, rfl⟩
  show (s.socket_emits ++ [("timeline", mkUpdateData w old_status new_status updated_by)]) ++
      [("floor_display", mkUpdateData w old_status new_status updated_by)] = _
  rw [List.append_assoc]
  rfl

/-- Counterexample to C4: when `update_queue.put` raises, the whole
`try` block is abandoned, so neither `socketio.emit` is attempted even
though both would succeed — the other transport's delivery is *not*
attempted. -/
theorem C4_counterexample :
    (broadcast_status_update ⟨true, false, false⟩ demoWO "Ready" "In Progress"
      "alice" initNotify).1.socket_emits = [] ∧
    (broadcast_status_update noFaults demoWO "Ready" "In Progress"
      "alice" initNotify).1.socket_emits ≠ [] := by
  exact ⟨rfl, by decide⟩

/-- C4 as amended: no exception ever propagates out of
`broadcast_status_update` (the single `except` swallows everything), but
the deliveries are sequential inside one `try`: a queue-publish failure
suppresses both Socket.IO emits, and a `timeline` emit failure
suppresses the `floor_display` emit. -/
theorem C4_no_propagation_but_sequential (f : Faults) (w : WorkOrderData)
    (old_status new_status updated_by : String) (s : NotifyState) :
    (broadcast_status_update f w old_status new_status updated_by s).2 = none ∧
    (broadcast_status_update ⟨true, f.emit_timeline_raises, f.emit_floor_raises⟩
      w old_status new_status updated_by s).1 = s ∧
    (broadcast_status_update ⟨false, true, f.emit_floor_raises⟩
      w old_status new_status updated_by s).1.socket_emits = s.socket_emits := by
  refine ⟨?_, rfl, rfl⟩
  unfold broadcast_status_update
  cases tryBroadcast f w old_status new_status updated_by s with
  | mk s' e => rfl

/-- Counterexample to C7: with `c1` already registered (and in a room),
a second `handle_connect` for the same identifier does not fail with any
`DuplicateConnection` error — it succeeds, emits `connected`, and
silently resets the record's joined rooms to empty. -/
theorem C7_counterexample :
    dictGet demo2.user_sessions "c1" = some ⟨u1, ["timeline"]⟩ ∧
    (handle_connect "c1" (some (some u1)) demo2).2 = [Emit.connected "c1"] ∧
    dictGet (handle_connect "c1" (some (some u1)) demo2).1.user_sessions "c1" =
      some ⟨u1, []⟩ := by
  refine ⟨by decide, rfl, by decide⟩

/-- C7 as amended: a register call with a valid token always succeeds —
it emits `connected`, leaves the Room Registry untouched, and
unconditionally (over)writes the session record with the given identity
and an empty joined-rooms set, even when the identifier was already
registered. -/
theorem C7_register_overwrites (sid : Sid) (u : UserInfo) (s : ServerState) :
    (handle_connect sid (some (some u)) s).2 = [Emit.connected sid] ∧
    dictGet (handle_connect sid (some (some u)) s).1.user_sessions sid =
      some ⟨u, []⟩ ∧
    (handle_connect sid (some (some u)) s).1.room_users = s.room_users :=
  ⟨rfl, dictGet_insert_self _ _ _, rfl⟩

/-- C8: joining a room outside the closed enumeration
`{timeline, floor_display}` is rejected with an error naming the room
and the entire server state is left unchanged. -/
theorem C8_invalid_room_join_rejected (sid : Sid) (room : RoomName)
    (s : ServerState) (h : room ∉ validRooms) :
    handle_join_room sid room s = (s, [.error ("Invalid room: " ++ room)]) :=
  handle_join_invalid h

/-- Witness for C8 at a concrete room name and state. -/
theorem C8_invalid_room_join_rejected_witness :
    handle_join_room "c1" "not_a_real_room" demo1 =
      (demo1, [.error "Invalid room: not_a_real_room"]) :=
  C8_invalid_room_join_rejected "c1" "not_a_real_room" demo1 (by decide)

/-- Counterexample to C10: after `c1` joins and then leaves `timeline`,
`get_room_users "timeline"` returns the empty list although `timeline`
still has an entry in `room_users` (the entry is an empty dict; deleting
the last member does not delete the room's entry). -/
theorem C10_counterexample :
    get_room_users "timeline" demo3 = [] ∧
    dictGet demo3.room_users "timeline" = some [] := by
  exact ⟨by decide, by decide⟩

/-- C10 as amended: `get_room_users` is total — it returns the value
list of the room's member map, `[]` when the room has no entry — and it
returns `[]` exactly when the room has no entry in `room_users` or the
room's entry is an empty member map. -/
theorem C10_get_room_users_total (s : ServerState) (room : RoomName) :
    get_room_users room s = ((dictGet s.room_users room).getD []).map Prod.snd ∧
    (get_room_users room s = [] ↔
      (dictGet s.room_users room = none ∨ dictGet s.room_users room = some [])) := by
  cases hm : dictGet s.room_users room with
  | none =>
      rw [get_room_users_none hm]
      simp
  | some m =>
      rw [get_room_users_some hm]
      simp [List.map_eq_nil_iff]

end StateLemmas

end SMT
